import Mathlib

/-!
Verification of the CPF info bot ingestion and RAG pipeline
(`src/ingest.py`, `src/rag.py`, `src/utils/security.py`) against its
natural-language specification.

The Python modules are shallowly embedded: each Python function becomes a
Lean function over explicit data; filesystem state and external backends
(embedding service, language model) become explicit parameters, so that
every operation is a pure, executable Lean definition.
-/

namespace Cpf

/-- Metadata attached to a loaded document, as built by `_load_file` in
`src/ingest.py`: the file name (citation key) and the path relative to the
data directory. -/
structure Metadata where
  source : String
  relative_path : String
deriving DecidableEq, Repr

/-- A langchain `Document`: page content plus metadata. -/
structure Document where
  page_content : String
  metadata : Metadata
deriving DecidableEq, Repr

/-- Configuration constant `CHUNK_SIZE` from `src/ingest.py`. -/
def CHUNK_SIZE : Nat := 800

/-- Configuration constant `CHUNK_OVERLAP` from `src/ingest.py`. -/
def CHUNK_OVERLAP : Nat := 100

/-- The separator priority list passed to the text splitter in
`_split_documents` (`src/ingest.py`): section headers, list items, line
breaks, sentence boundaries. -/
def SEPARATORS : List String := ["\n## ", "\n- ", "\n", ". "]

/-- The supported-extension allow-list `SUPPORTED_SUFFIXES` from
`src/ingest.py`. -/
def SUPPORTED_SUFFIXES : List String := [".txt", ".md", ".pdf"]

/-- Python `str.lower()` (ASCII case suffices for the extension strings
compared here), written over the character list so it evaluates in the
kernel. -/
def pyToLower (s : String) : String :=
  String.mk (s.toList.map Char.toLower)

/-- One step of `str.split(sep)`: scan the character list, cutting at each
occurrence of the separator.  `fuel` bounds the recursion by the input
length so the definition is structural. -/
def splitOnGo (sep : List Char) : Nat → List Char → List Char → List (List Char)
  | _, [], acc => [acc.reverse]
  | 0, cs, acc => [acc.reverse ++ cs]
  | n + 1, c :: cs, acc =>
    if sep.isPrefixOf (c :: cs) then
      acc.reverse :: splitOnGo sep n ((c :: cs).drop sep.length) []
    else
      splitOnGo sep n cs (c :: acc)

/-- Python `str.split(sep)` / `String.splitOn`: split at every
non-overlapping occurrence of the (non-empty) separator, scanning left to
right. -/
def pySplitOn (sep : String) (s : String) : List String :=
  if sep.toList.isEmpty then [s]
  else (splitOnGo sep.toList s.toList.length s.toList []).map (fun cs => String.mk cs)

/-- Lexicographic order on character lists by code point, the order Python
uses when sorting file names. -/
def charListLe : List Char → List Char → Bool
  | [], _ => true
  | _ :: _, [] => false
  | a :: as, b :: bs =>
    if a = b then charListLe as bs else Nat.blt a.toNat b.toNat

/-- Hard cut of a character list into pieces of at most `chunkSize`
characters: the fallback of the recursive splitter when no structural
separator applies. -/
def hardCut (chunkSize : Nat) (cs : List Char) : List (List Char) :=
  if h1 : cs = [] then []
  else if h2 : chunkSize = 0 then [cs]
  else cs.take chunkSize :: hardCut chunkSize (cs.drop chunkSize)
termination_by cs.length
decreasing_by
  have hlen : cs.length ≠ 0 := fun h => h1 (List.length_eq_zero.mp h)
  simp only [List.length_drop]
  omega

/-- Modelled from the spec (§4.2): the repository delegates chunking to a
library recursive character splitter whose source is not part of this
repository.  Following the spec, a text within the size budget is kept
whole (empty text yields no chunk, matching the library: empty splits are
filtered out); an oversize text is split at the first applicable separator
in priority order, each piece being split recursively with the remaining
separators, with a hard cut at the size budget as final fallback.  The
overlap merge step is modelled as the identity on the recursive splits. -/
def splitRec (chunkSize : Nat) : (seps : List String) → (text : String) → List String
  | seps, text =>
    if text.length ≤ chunkSize then
      if text = "" then [] else [text]
    else
      match seps with
      | [] => ((hardCut chunkSize text.toList).map (fun cs => String.mk cs)).filter
          (fun s => s ≠ "")
      | s :: rest =>
          ((pySplitOn s text).filter (fun p => p ≠ "")).flatMap
            (fun p => splitRec chunkSize rest p)

/-- Splitting one text with the repository's configuration (chunk size 800,
overlap 100, the structural separator list). -/
def split_text (text : String) : List String :=
  splitRec CHUNK_SIZE SEPARATORS text

/-- `_split_documents` (`src/ingest.py`): split every document into chunks;
each chunk inherits the metadata of the document it came from (the library
splitter copies the parent metadata onto every chunk). -/
def _split_documents (documents : List Document) : List Document :=
  documents.flatMap (fun d =>
    (split_text d.page_content).map (fun t => { page_content := t, metadata := d.metadata }))

/-- `_read_pdf` (`src/ingest.py`): page texts are joined with newline
separators; a page whose extraction yields nothing (`extract_text()`
returning `None`, modelled as `none`) contributes the empty string via
`page.extract_text() or ""`. -/
def _read_pdf (pages : List (Option String)) : String :=
  String.intercalate "\n" (pages.map (fun p => p.getD ""))

/-- A file as observed by the loader: its path components relative to the
scanned root, its `pathlib` suffix, whether it is a regular file, and what
the two readers would produce on it (`read_text` and `PdfReader`). -/
structure SrcFile where
  parts : List String
  suffix : String
  is_file : Bool
  text : String
  pages : List (Option String)
deriving DecidableEq, Repr

/-- `path.name`: the last path component. -/
def fileName (f : SrcFile) : String :=
  (f.parts.getLast?).getD ""

/-- Error raised by `_load_file` on an extension outside the allow-list
(`ValueError("Unsupported file type: ...")`, the spec's
`UnsupportedFormat`). -/
inductive IngestError where
  | unsupportedFormat (suffix : String)
deriving DecidableEq, Repr

/-- `_load_file` (`src/ingest.py`): read `.txt`/`.md` files as text,
`.pdf` files via `_read_pdf`; any other suffix raises `UnsupportedFormat`.
The metadata records the file name and its path relative to `DATA_DIR`
(the scanned root name followed by the path inside the root). -/
def _load_file (root : String) (f : SrcFile) : Except IngestError Document :=
  if [".txt", ".md"].contains (pyToLower f.suffix) then
    .ok { page_content := f.text
          metadata := { source := fileName f
                        relative_path := String.intercalate "/" (root :: f.parts) } }
  else if pyToLower f.suffix = ".pdf" then
    .ok { page_content := _read_pdf f.pages
          metadata := { source := fileName f
                        relative_path := String.intercalate "/" (root :: f.parts) } }
  else
    .error (.unsupportedFormat f.suffix)

/-- The two document roots (`SAMPLE_DOCS_DIR`, `UPLOADS_DIR`); `none`
models a directory that does not exist, `some entries` its recursive
listing (`rglob`) in traversal order, files at depth 1 being the immediate
children seen by `iterdir`. -/
structure DataDirs where
  sample_docs : Option (List SrcFile)
  uploads : Option (List SrcFile)
deriving DecidableEq, Repr

/-- The `rglob` loop body of `load_documents`: keep regular files with a
supported suffix and load each one. -/
def scanRoot (root : String) (entries : List SrcFile) : List Document :=
  (entries.filter
      (fun p => p.is_file && SUPPORTED_SUFFIXES.contains (pyToLower p.suffix))).filterMap
    (fun p => (_load_file root p).toOption)

/-- `load_documents` (`src/ingest.py`): scan both roots recursively,
skipping a root that does not exist, and load every regular file whose
lower-cased suffix is in the allow-list. -/
def load_documents (dirs : DataDirs) : List Document :=
  (match dirs.sample_docs with
   | none => []
   | some es => scanRoot "sample_docs" es) ++
  (match dirs.uploads with
   | none => []
   | some es => scanRoot "uploads" es)

/-- `list_existing_documents` (`src/ingest.py`): for each existing root,
the regular files among its immediate children (`iterdir`, modelled as the
entries at depth 1), sorted by name within the root; no extension
filtering. -/
def nameLe (a b : SrcFile) : Bool :=
  charListLe (fileName a).toList (fileName b).toList

/-- Stable insertion of an element into a list sorted by `le`. -/
def insertSortedBy (le : α → α → Bool) (a : α) : List α → List α
  | [] => [a]
  | b :: bs => if le a b then a :: b :: bs else b :: insertSortedBy le a bs

/-- Stable insertion sort, modelling Python `sorted`. -/
def insertionSortBy (le : α → α → Bool) : List α → List α
  | [] => []
  | a :: as => insertSortedBy le a (insertionSortBy le as)

def listRoot (entries : List SrcFile) : List SrcFile :=
  insertionSortBy nameLe (entries.filter (fun p => p.is_file && p.parts.length == 1))

def list_existing_documents (dirs : DataDirs) : List SrcFile :=
  (match dirs.sample_docs with
   | none => []
   | some es => listRoot es) ++
  (match dirs.uploads with
   | none => []
   | some es => listRoot es)

/-! ## Vector store (`build_vector_store`, `load_vector_store`) -/

/-- The persisted Chroma collection: the indexed chunks. -/
structure Store where
  entries : List Document
deriving DecidableEq, Repr

/-- The state of `VECTOR_DIR` on disk: whether the directory exists and,
when `chroma.sqlite3` is present, the store it holds (`none` models an
absent or not-yet-persisted index file). -/
structure VectorFS where
  dir_exists : Bool
  index : Option Store
deriving DecidableEq, Repr

/-- Outcome of one `build_vector_store` run, with the filesystem state it
leaves behind:
* `emptyCorpus fs` — the `ValueError("No documents found to index. ...")`
  raised by the guard, before the filesystem is touched (the spec's
  `EmptyCorpus`);
* `backendError fs` — the embedding backend raised during
  `Chroma.from_documents`, after `VECTOR_DIR` has already been removed and
  recreated empty (the spec's `EmbeddingBackendUnavailable`);
* `ok fs store` — success: the new store has been persisted. -/
inductive BuildOutcome where
  | emptyCorpus (fs : VectorFS)
  | backendError (fs : VectorFS)
  | ok (fs : VectorFS) (store : Store)
deriving DecidableEq, Repr

/-- `build_vector_store` (`src/ingest.py`): ingest documents, raise if the
document list is empty, split into chunks, then delete `VECTOR_DIR`
wholesale (`shutil.rmtree`), recreate it, and build and persist the new
collection in place.  The embedding backend and Chroma are modelled by the
`backend` parameter: `none` models a raising backend, `some store` the
store `Chroma.from_documents` persists. -/
def build_vector_store (backend : List Document → Option Store) (dirs : DataDirs)
    (fs : VectorFS) : BuildOutcome :=
  let documents := load_documents dirs
  if documents.isEmpty then
    .emptyCorpus fs
  else
    let chunks := _split_documents documents
    let wiped : VectorFS := { dir_exists := true, index := none }
    match backend chunks with
    | none => .backendError wiped
    | some store => .ok { dir_exists := true, index := some store } store

/-- The honest Chroma backend: persists exactly the chunks it is given. -/
def chromaOk : List Document → Option Store :=
  fun chunks => some { entries := chunks }

/-- A backend whose embedding calls fail (network/auth failure). -/
def chromaDown : List Document → Option Store :=
  fun _ => none

/-- `load_vector_store` (`src/ingest.py`): return a handle to the
persisted index if `VECTOR_DIR/chroma.sqlite3` exists, else `None`. -/
def load_vector_store (fs : VectorFS) : Option Store :=
  match fs.index with
  | none => none
  | some s => some s

/-! ## RAG pipeline (`src/rag.py`) -/

/-- `RAGResponse` (`src/rag.py`). -/
structure RAGResponse where
  answer : String
  citations : List String
  source_documents : List String
deriving DecidableEq, Repr

/-- The context block assembled by `RAGPipeline.query`: every retrieved
chunk prefixed by its source name, blocks joined with blank lines. -/
def buildContext (documents : List Document) : String :=
  String.intercalate "\n\n"
    (documents.map (fun doc => "Source: " ++ doc.metadata.source ++ "\n" ++ doc.page_content))

/-- The human-message prompt assembled by `RAGPipeline.query`. -/
def buildPrompt (question : String) (documents : List Document) : String :=
  "Context:\n" ++ buildContext documents ++ "\n\n" ++
    "Question: " ++ question ++ "\n" ++
    "Answer in a factual tone and cite sources in parentheses."

/-- Error raised by `query` when retrieval returns nothing
(`ValueError("No documents available in the vector store.")`, the spec's
`NoEvidence`). -/
inductive QueryError where
  | noEvidence
deriving DecidableEq, Repr

/-- `RAGPipeline.query` (`src/rag.py`), with the retrieved documents and
the language model supplied explicitly.  The second component counts the
language-model invocations performed (`self.llm.invoke` calls). -/
def query (llm : String → String) (question : String) (documents : List Document) :
    Except QueryError RAGResponse × Nat :=
  if documents.isEmpty then
    (.error .noEvidence, 0)
  else
    let answer := llm (buildPrompt question documents)
    (.ok { answer := answer
           citations := documents.map (fun doc => doc.metadata.source)
           source_documents := documents.map (fun doc => doc.page_content) }, 1)

/-! ## Password utilities (`src/utils/security.py`) -/

/-- Python truthiness of an optional string: `None` and the empty string
are falsy. -/
def pyTruthy : Option String → Bool
  | none => false
  | some s => s ≠ ""

/-- Python `a or b` on optional strings. -/
def pyOrStr (a b : Option String) : Option String :=
  if pyTruthy a then a else b

/-- `_get_secret` (`src/utils/security.py`): the Streamlit secrets entry
if present and truthy, else the environment variable.  `secretsVal` is
`None` both when `st.secrets` is missing and when the key is unset. -/
def _get_secret (secretsVal envVal : Option String) : Option String :=
  pyOrStr secretsVal envVal

/-- `_get_admin_secret` (`src/utils/security.py`): `_get_secret` applied
to the `admin_password` key and `CPF_ADMIN_PASSWORD` variable. -/
def _get_admin_secret (secretsVal envVal : Option String) : Option String :=
  _get_secret secretsVal envVal

/-- `hmac.compare_digest` on strings: constant-time equality; its value is
string equality. -/
def compare_digest (a b : String) : Bool :=
  a == b

/-- `verify_admin_password` (`src/utils/security.py`): `False` when the
configured secret is falsy, else a constant-time comparison with the
candidate. -/
def verify_admin_password (secretsVal envVal : Option String) (value : String) : Bool :=
  let secret := _get_admin_secret secretsVal envVal
  if pyTruthy secret then compare_digest value (secret.getD "") else false

/-! ## Concrete fixtures -/

/-- A zero-byte text file at the top of the sample docs root. -/
def emptyTxtFile : SrcFile :=
  { parts := ["empty.txt"], suffix := ".txt", is_file := true, text := "", pages := [] }

/-- A short markdown file. -/
def faqFile : SrcFile :=
  { parts := ["faq1.md"], suffix := ".md", is_file := true
    text := "Members may withdraw CPF savings from age 55.", pages := [] }

/-- The document `_load_file` builds from `faqFile`. -/
def faqDoc : Document :=
  { page_content := "Members may withdraw CPF savings from age 55."
    metadata := { source := "faq1.md", relative_path := "sample_docs/faq1.md" } }

/-- A top-level file with an extension outside the allow-list. -/
def docxFile : SrcFile :=
  { parts := ["manual.docx"], suffix := ".docx", is_file := true, text := "", pages := [] }

/-- A subdirectory entry, as yielded by a recursive scan. -/
def subDirEntry : SrcFile :=
  { parts := ["sub"], suffix := "", is_file := false, text := "", pages := [] }

/-- A supported file inside a subdirectory. -/
def nestedTxtFile : SrcFile :=
  { parts := ["sub", "notes.txt"], suffix := ".txt", is_file := true
    text := "note text", pages := [] }

/-- The document `_load_file` builds from `nestedTxtFile`. -/
def nestedDoc : Document :=
  { page_content := "note text"
    metadata := { source := "notes.txt", relative_path := "sample_docs/sub/notes.txt" } }

/-- A PDF file whose middle page yields no extractable text. -/
def pdfFile : SrcFile :=
  { parts := ["guide.pdf"], suffix := ".pdf", is_file := true, text := ""
    pages := [some "page one", none, some "page three"] }

/-- Both roots present but with no files at all. -/
def emptyDirs : DataDirs := { sample_docs := some [], uploads := some [] }

/-- One root holding only the zero-byte text file. -/
def emptyDocDirs : DataDirs := { sample_docs := some [emptyTxtFile], uploads := none }

/-- One root holding only `faqFile`. -/
def faqDirs : DataDirs := { sample_docs := some [faqFile], uploads := none }

/-- One root holding an unsupported top-level file and a supported file in
a subdirectory. -/
def mixedDirs : DataDirs :=
  { sample_docs := some [docxFile, subDirEntry, nestedTxtFile], uploads := none }

/-- A previously persisted index. -/
def oldStore : Store :=
  { entries := [{ page_content := "old chunk"
                  metadata := { source := "old.md", relative_path := "sample_docs/old.md" } }] }

/-- Filesystem state with that previous index persisted. -/
def fsWithOldIndex : VectorFS := { dir_exists := true, index := some oldStore }

/-- `load_documents` after dropping every regular file whose suffix is
outside the allow-list (used to state that such files contribute
nothing). -/
def keepSupportedFiles (es : List SrcFile) : List SrcFile :=
  es.filter (fun p => !p.is_file || SUPPORTED_SUFFIXES.contains (pyToLower p.suffix))

def keepSupported (dirs : DataDirs) : DataDirs :=
  { sample_docs := dirs.sample_docs.map keepSupportedFiles
    uploads := dirs.uploads.map keepSupportedFiles }

/-! ## Supporting lemmas -/

theorem mem_split_documents {c : Document} {docs : List Document}
    (h : c ∈ _split_documents docs) : ∃ d ∈ docs, c.metadata = d.metadata := by
  simp only [_split_documents, List.mem_flatMap, List.mem_map] at h
  obtain ⟨d, hd, t, _, rfl⟩ := h
  exact ⟨d, hd, rfl⟩

theorem load_file_ok_source {root : String} {f : SrcFile} {d : Document}
    (h : _load_file root f = .ok d) : d.metadata.source = fileName f := by
  unfold _load_file at h
  split at h
  · cases h; rfl
  · split at h
    · cases h; rfl
    · cases h

theorem scanRoot_keepSupported (root : String) (es : List SrcFile) :
    scanRoot root (keepSupportedFiles es) = scanRoot root es := by
  unfold scanRoot keepSupportedFiles
  rw [List.filter_filter]
  congr 1
  apply List.filter_congr
  intro p _
  cases h1 : p.is_file <;>
    cases h2 : SUPPORTED_SUFFIXES.contains (pyToLower p.suffix) <;> simp [h1, h2]

theorem char_eq_of_toNat_eq {a b : Char} (h : a.toNat = b.toNat) : a = b :=
  Char.eq_of_val_eq (UInt32.eq_of_toBitVec_eq (BitVec.eq_of_toNat_eq h))

theorem charListLe_total (as bs : List Char) :
    charListLe as bs = true ∨ charListLe bs as = true := by
  induction as generalizing bs with
  | nil => left; rfl
  | cons a as ih =>
    cases bs with
    | nil => right; rfl
    | cons b bs =>
      by_cases hab : a = b
      · subst hab
        rcases ih bs with h | h
        · left; simpa [charListLe] using h
        · right; simpa [charListLe] using h
      · have hba : ¬b = a := fun h => hab h.symm
        have hne : a.toNat ≠ b.toNat := fun h => hab (char_eq_of_toNat_eq h)
        rcases Nat.lt_or_ge a.toNat b.toNat with h | h
        · left; simp [charListLe, hab, Nat.blt_eq]; omega
        · right; simp [charListLe, hba, Nat.blt_eq]; omega

theorem charListLe_trans {as bs cs : List Char}
    (h1 : charListLe as bs = true) (h2 : charListLe bs cs = true) :
    charListLe as cs = true := by
  induction as generalizing bs cs with
  | nil => rfl
  | cons a as ih =>
    cases bs with
    | nil => simp [charListLe] at h1
    | cons b bs =>
      cases cs with
      | nil => simp [charListLe] at h2
      | cons c cs =>
        by_cases hab : a = b <;> by_cases hbc : b = c
        · subst hab; subst hbc
          simp only [charListLe, if_pos rfl] at h1 h2 ⊢
          exact ih h1 h2
        · subst hab
          simp only [charListLe, if_pos rfl, if_neg hbc] at h2 ⊢
          exact h2
        · subst hbc
          simp only [charListLe, if_pos rfl, if_neg hab] at h1 ⊢
          exact h1
        · simp only [charListLe, if_neg hab, if_neg hbc] at h1 h2
          have hac : ¬a = c := by
            intro he
            rw [Nat.blt_eq] at h1 h2
            rw [he] at h1
            omega
          simp only [charListLe, if_neg hac, Nat.blt_eq] at *
          omega

theorem nameLe_total (a b : SrcFile) : nameLe a b = true ∨ nameLe b a = true :=
  charListLe_total _ _

theorem nameLe_trans {a b c : SrcFile} (h1 : nameLe a b = true) (h2 : nameLe b c = true) :
    nameLe a c = true :=
  charListLe_trans h1 h2

theorem mem_insertSortedBy {le : α → α → Bool} {a x : α} {l : List α} :
    x ∈ insertSortedBy le a l ↔ x = a ∨ x ∈ l := by
  induction l with
  | nil => simp [insertSortedBy]
  | cons b bs ih =>
    by_cases h : le a b = true
    · simp [insertSortedBy, h]
    · simp only [insertSortedBy, if_neg h, List.mem_cons, ih]
      tauto

theorem pairwise_insertSortedBy {le : α → α → Bool}
    (total : ∀ x y : α, le x y = true ∨ le y x = true)
    (trans : ∀ {x y z : α}, le x y = true → le y z = true → le x z = true)
    {a : α} {l : List α} (h : l.Pairwise (fun x y => le x y = true)) :
    (insertSortedBy le a l).Pairwise (fun x y => le x y = true) := by
  induction l with
  | nil => simp [insertSortedBy]
  | cons b bs ih =>
    rcases List.pairwise_cons.mp h with ⟨hb, hbs⟩
    by_cases hab : le a b = true
    · rw [insertSortedBy, if_pos hab]
      refine List.Pairwise.cons ?_ (List.Pairwise.cons hb hbs)
      intro x hx
      rcases List.mem_cons.mp hx with rfl | hx
      · exact hab
      · exact trans hab (hb x hx)
    · have hba : le b a = true := (total a b).resolve_left hab
      rw [insertSortedBy, if_neg hab]
      refine List.Pairwise.cons ?_ (ih hbs)
      intro x hx
      rcases mem_insertSortedBy.mp hx with rfl | hx
      · exact hba
      · exact hb x hx

theorem pairwise_insertionSortBy {le : α → α → Bool}
    (total : ∀ x y : α, le x y = true ∨ le y x = true)
    (trans : ∀ {x y z : α}, le x y = true → le y z = true → le x z = true)
    (l : List α) :
    (insertionSortBy le l).Pairwise (fun x y => le x y = true) := by
  induction l with
  | nil => exact List.Pairwise.nil
  | cons a as ih => exact pairwise_insertSortedBy total (fun h1 h2 => trans h1 h2) ih

theorem mem_insertionSortBy {le : α → α → Bool} {x : α} {l : List α} :
    x ∈ insertionSortBy le l ↔ x ∈ l := by
  induction l with
  | nil => simp [insertionSortBy]
  | cons a as ih =>
    simp only [insertionSortBy, mem_insertSortedBy, List.mem_cons, ih]

/-! ## Claims -/

/-- **C1** (counterexample): a rebuild whose ingestion yields zero input
chunks does not necessarily fail with `EmptyCorpus`, and the previously
persisted index is not left unchanged.  With a single zero-byte `.txt`
file the document list is non-empty, so the guard in `build_vector_store`
does not fire, yet splitting yields zero chunks; the run deletes the old
index and replaces it with an empty one. -/
theorem c1_zero_chunks_counterexample :
    load_documents emptyDocDirs ≠ [] ∧
    _split_documents (load_documents emptyDocDirs) = [] ∧
    build_vector_store chromaOk emptyDocDirs fsWithOldIndex =
      .ok { dir_exists := true, index := some { entries := [] } } { entries := [] } ∧
    build_vector_store chromaOk emptyDocDirs fsWithOldIndex ≠
      .emptyCorpus fsWithOldIndex ∧
    fsWithOldIndex.index = some oldStore :=
  ⟨by decide, by decide, by decide, by decide, rfl⟩

/-- **C1** (amended): for every call to `build_vector_store` whose
ingestion yields zero input *documents*, the call fails with the
`EmptyCorpus` error and the previously persisted index content is left
unchanged (the storage location is not deleted or overwritten before the
failure). -/
theorem build_vector_store_empty_corpus (backend : List Document → Option Store)
    (dirs : DataDirs) (fs : VectorFS) (h : load_documents dirs = []) :
    build_vector_store backend dirs fs = .emptyCorpus fs := by
  unfold build_vector_store
  simp [h]

theorem build_vector_store_empty_corpus_witness :
    load_documents emptyDirs = [] ∧
    build_vector_store chromaOk emptyDirs fsWithOldIndex = .emptyCorpus fsWithOldIndex :=
  ⟨by decide, build_vector_store_empty_corpus chromaOk emptyDirs fsWithOldIndex (by decide)⟩

/-- **C2** (counterexample): rebuild is not atomic from the caller's
perspective.  Starting from a filesystem whose `load` observes the
complete old index, a rebuild that raises after it has started (embedding
backend unavailable mid-build) leaves a state in which a subsequent
`load_vector_store` observes `none` — neither the complete old index nor
the complete new one. -/
theorem c2_atomicity_counterexample :
    load_vector_store fsWithOldIndex = some oldStore ∧
    build_vector_store chromaDown faqDirs fsWithOldIndex =
      .backendError { dir_exists := true, index := none } ∧
    load_vector_store { dir_exists := true, index := none } = none ∧
    load_vector_store { dir_exists := true, index := none } ≠ some oldStore :=
  ⟨rfl, by decide, rfl, by decide⟩

/-- **C2** (amended): rebuild overwrites the storage location in place.
The previous index remains untouched until the rebuild actually starts
overwriting; a successful rebuild leaves `load` observing exactly the
complete new index; but an execution that raises after the overwrite has
started (embedding backend unavailable mid-build) leaves `load` observing
no index at all — not the old index, not a mix, and not a complete new
one. -/
theorem build_vector_store_overwrites_in_place (dirs : DataDirs) (fs : VectorFS)
    (h : load_documents dirs ≠ []) :
    build_vector_store chromaDown dirs fs =
      .backendError { dir_exists := true, index := none } ∧
    load_vector_store { dir_exists := true, index := none } = none ∧
    build_vector_store chromaOk dirs fs =
      .ok { dir_exists := true
            index := some { entries := _split_documents (load_documents dirs) } }
        { entries := _split_documents (load_documents dirs) } ∧
    load_vector_store
        { dir_exists := true
          index := some { entries := _split_documents (load_documents dirs) } } =
      some { entries := _split_documents (load_documents dirs) } := by
  have hne : (load_documents dirs).isEmpty = false := by
    cases hl : load_documents dirs with
    | nil => exact absurd hl h
    | cons a as => rfl
  refine ⟨?_, rfl, ?_, rfl⟩ <;>
    simp [build_vector_store, hne, chromaDown, chromaOk]

theorem build_vector_store_overwrites_in_place_witness :
    load_documents faqDirs ≠ [] ∧
    (build_vector_store chromaDown faqDirs fsWithOldIndex =
      .backendError { dir_exists := true, index := none } ∧
    load_vector_store { dir_exists := true, index := none } = none ∧
    build_vector_store chromaOk faqDirs fsWithOldIndex =
      .ok { dir_exists := true
            index := some { entries := _split_documents (load_documents faqDirs) } }
        { entries := _split_documents (load_documents faqDirs) } ∧
    load_vector_store
        { dir_exists := true
          index := some { entries := _split_documents (load_documents faqDirs) } } =
      some { entries := _split_documents (load_documents faqDirs) }) :=
  ⟨by decide, build_vector_store_overwrites_in_place faqDirs fsWithOldIndex (by decide)⟩

/-- **C3**: for every question, when retrieval returns an empty list of
chunks, `query` fails with the `NoEvidence` error before invoking the
language model, performing zero language-model calls. -/
theorem query_no_evidence (llm : String → String) (question : String)
    (documents : List Document) (h : documents = []) :
    query llm question documents = (.error .noEvidence, 0) := by
  subst h
  rfl

theorem query_no_evidence_witness :
    query (fun _ => "ans") "what is the CPF withdrawal age" [] =
      (.error .noEvidence, 0) :=
  query_no_evidence (fun _ => "ans") "what is the CPF withdrawal age" [] rfl

/-- **C4**: citation round-trip.  Every chunk produced by the chunker from
a loaded document carries that document's file name as its metadata
source; and every citation in the response returned by `query` is the
source name of one of the supplied retrieved chunks. -/
theorem citation_round_trip :
    (∀ (root : String) (f : SrcFile) (d : Document), _load_file root f = .ok d →
      ∀ c ∈ _split_documents [d], c.metadata.source = fileName f) ∧
    (∀ (llm : String → String) (question : String) (documents : List Document)
        (resp : RAGResponse) (n : Nat),
      query llm question documents = (.ok resp, n) →
      ∀ cit ∈ resp.citations, ∃ d ∈ documents, d.metadata.source = cit) := by
  constructor
  · intro root f d hd c hc
    obtain ⟨d', hd', hmeta⟩ := mem_split_documents hc
    rw [List.mem_singleton] at hd'
    subst hd'
    rw [hmeta, load_file_ok_source hd]
  · intro llm question documents resp n hq cit hcit
    unfold query at hq
    split at hq
    · simp at hq
    · rw [Prod.mk.injEq] at hq
      cases Except.ok.inj hq.1
      simp only [List.mem_map] at hcit
      obtain ⟨d, hd, rfl⟩ := hcit
      exact ⟨d, hd, rfl⟩

theorem citation_round_trip_witness :
    faqDoc.metadata.source = fileName faqFile ∧
    ∃ d ∈ [faqDoc], d.metadata.source = "faq1.md" :=
  ⟨citation_round_trip.1 "sample_docs" faqFile faqDoc rfl faqDoc (by decide),
   citation_round_trip.2 (fun _ => "ans") "q" [faqDoc]
     { answer := "ans", citations := ["faq1.md"]
       source_documents := ["Members may withdraw CPF savings from age 55."] } 1 rfl
     "faq1.md" (by decide)⟩

/-- **C5**: for every PDF file, the document text is the page texts
concatenated with newline separators; a page that yields no extractable
text contributes the empty string (the same text as a page extracting to
the empty string); and loading a PDF file always succeeds — one bad page
never fails the whole file. -/
theorem read_pdf_page_concat (pages pre post : List (Option String))
    (root : String) (f : SrcFile) (hf : pyToLower f.suffix = ".pdf") :
    _read_pdf pages = String.intercalate "\n" (pages.map (fun p => p.getD "")) ∧
    _read_pdf (pre ++ none :: post) = _read_pdf (pre ++ some "" :: post) ∧
    _load_file root f =
      .ok { page_content := _read_pdf f.pages
            metadata := { source := fileName f
                          relative_path := String.intercalate "/" (root :: f.parts) } } := by
  refine ⟨rfl, by simp [_read_pdf], ?_⟩
  unfold _load_file
  rw [hf]
  rfl

theorem read_pdf_page_concat_witness :
    pyToLower pdfFile.suffix = ".pdf" ∧
    (_read_pdf pdfFile.pages =
      String.intercalate "\n" (pdfFile.pages.map (fun p => p.getD "")) ∧
    _read_pdf ([some "page one"] ++ none :: [some "page three"]) =
      _read_pdf ([some "page one"] ++ some "" :: [some "page three"]) ∧
    _load_file "sample_docs" pdfFile =
      .ok { page_content := _read_pdf pdfFile.pages
            metadata := { source := fileName pdfFile
                          relative_path :=
                            String.intercalate "/" ("sample_docs" :: pdfFile.parts) } }) :=
  ⟨by decide,
   read_pdf_page_concat pdfFile.pages [some "page one"] [some "page three"]
     "sample_docs" pdfFile (by decide)⟩

/-- **C6**: during a directory scan, every file whose extension is outside
the allow-list contributes no document (removing all such files leaves
`load_documents` unchanged); and an explicit `_load_file` of a file with
an unsupported extension fails with the `UnsupportedFormat` error. -/
theorem unsupported_extension_handling :
    (∀ (root : String) (f : SrcFile),
      pyToLower f.suffix ∉ SUPPORTED_SUFFIXES →
      _load_file root f = .error (.unsupportedFormat f.suffix)) ∧
    (∀ dirs : DataDirs, load_documents (keepSupported dirs) = load_documents dirs) := by
  constructor
  · intro root f h
    simp only [SUPPORTED_SUFFIXES, List.mem_cons, List.not_mem_nil, or_false,
      not_or] at h
    obtain ⟨h1, h2, h3⟩ := h
    unfold _load_file
    rw [if_neg ?_, if_neg h3]
    intro hc
    simp only [List.contains_cons, List.contains_nil, Bool.or_eq_true,
      beq_iff_eq] at hc
    rcases hc with hc | hc | hc
    · exact h1 hc
    · exact h2 hc
    · exact Bool.false_ne_true hc
  · intro dirs
    obtain ⟨sd, up⟩ := dirs
    cases sd <;> cases up <;>
      simp [load_documents, keepSupported, scanRoot_keepSupported]

theorem unsupported_extension_handling_witness :
    pyToLower docxFile.suffix ∉ SUPPORTED_SUFFIXES ∧
    _load_file "sample_docs" docxFile = .error (.unsupportedFormat ".docx") ∧
    load_documents (keepSupported mixedDirs) = load_documents mixedDirs :=
  ⟨by decide,
   unsupported_extension_handling.1 "sample_docs" docxFile (by decide),
   unsupported_extension_handling.2 mixedDirs⟩

/-- **C7**: chunking is deterministic — two runs of `_split_documents` on
identical input with the identical configuration (chunk size 800, overlap
100) produce identical chunk sequences. -/
theorem chunking_deterministic (docs1 docs2 : List Document) (h : docs1 = docs2) :
    _split_documents docs1 = _split_documents docs2 := by
  rw [h]

theorem chunking_deterministic_witness :
    _split_documents [faqDoc] = _split_documents [faqDoc] :=
  chunking_deterministic [faqDoc] [faqDoc] rfl

/-- **C8**: for every successful `query` on a non-empty retrieved list,
the response has as many citations and source documents as retrieved
documents, and at every index the citation and the source document come
from the same retrieved document, in retrieval order. -/
theorem query_citation_alignment (llm : String → String) (question : String)
    (documents : List Document) (h : documents ≠ []) :
    ∃ resp : RAGResponse,
      query llm question documents = (.ok resp, 1) ∧
      resp.citations.length = documents.length ∧
      resp.source_documents.length = documents.length ∧
      (∀ i : Nat, resp.citations[i]? = (documents[i]?).map (fun d => d.metadata.source)) ∧
      (∀ i : Nat,
        resp.source_documents[i]? = (documents[i]?).map (fun d => d.page_content)) := by
  have hne : documents.isEmpty = false := by
    cases hl : documents with
    | nil => exact absurd hl h
    | cons a as => rfl
  refine ⟨{ answer := llm (buildPrompt question documents)
            citations := documents.map (fun doc => doc.metadata.source)
            source_documents := documents.map (fun doc => doc.page_content) },
    ?_, ?_, ?_, ?_, ?_⟩
  · simp [query, hne, buildPrompt]
  · simp
  · simp
  · intro i
    simp [List.getElem?_map]
  · intro i
    simp [List.getElem?_map]

theorem query_citation_alignment_witness :
    [faqDoc] ≠ ([] : List Document) ∧
    (∃ resp : RAGResponse,
      query (fun _ => "ans") "q" [faqDoc] = (.ok resp, 1) ∧
      resp.citations.length = [faqDoc].length ∧
      resp.source_documents.length = [faqDoc].length ∧
      (∀ i : Nat,
        resp.citations[i]? = ([faqDoc][i]?).map (fun d => d.metadata.source)) ∧
      (∀ i : Nat,
        resp.source_documents[i]? = ([faqDoc][i]?).map (fun d => d.page_content))) :=
  ⟨by decide, query_citation_alignment (fun _ => "ans") "q" [faqDoc] (by decide)⟩

/-- **C9**: for every candidate string, `verify_admin_password` returns
`False` when no admin secret is configured — the secrets entry and the
environment variable are each unset or empty; being a total function, it
never raises in that case. -/
theorem verify_admin_password_unconfigured (secretsVal envVal : Option String)
    (value : String)
    (hs : secretsVal = none ∨ secretsVal = some "")
    (he : envVal = none ∨ envVal = some "") :
    verify_admin_password secretsVal envVal value = false := by
  rcases hs with h | h <;> rcases he with h' | h' <;> rw [h, h'] <;> rfl

theorem verify_admin_password_unconfigured_witness :
    verify_admin_password none (some "") "any candidate" = false :=
  verify_admin_password_unconfigured none (some "") "any candidate"
    (Or.inl rfl) (Or.inr rfl)

/-- **C10**: `list_existing_documents` and `load_documents` enumerate
different file sets.  The listing returns only regular files that are
immediate children of a root, sorted by name within each root, with no
extension filtering; concretely, a directory holding an unsupported
top-level file and a supported file inside a subdirectory is listed as the
unsupported file alone, while ingestion loads exactly the nested supported
file. -/
theorem listing_differs_from_ingestion :
    (∀ (dirs : DataDirs) (f : SrcFile), f ∈ list_existing_documents dirs →
      f.is_file = true ∧ f.parts.length = 1) ∧
    (∀ es : List SrcFile,
      (listRoot es).Pairwise (fun a b => nameLe a b = true)) ∧
    (list_existing_documents mixedDirs = [docxFile] ∧
     pyToLower docxFile.suffix ∉ SUPPORTED_SUFFIXES ∧
     load_documents mixedDirs = [nestedDoc] ∧
     nestedTxtFile ∉ list_existing_documents mixedDirs ∧
     nestedDoc.metadata.source = fileName nestedTxtFile) := by
  refine ⟨?_, ?_, by decide, by decide, by decide, by decide, by decide⟩
  · intro dirs f hf
    obtain ⟨sd, up⟩ := dirs
    have hmem : ∀ es : List SrcFile, f ∈ listRoot es →
        f.is_file = true ∧ f.parts.length = 1 := by
      intro es hes
      have := mem_insertionSortBy.mp hes
      have hfil := List.of_mem_filter this
      simp only [Bool.and_eq_true, beq_iff_eq] at hfil
      exact hfil
    cases sd with
    | none =>
      cases up with
      | none => simp [list_existing_documents] at hf
      | some es =>
        simp only [list_existing_documents, List.nil_append] at hf
        exact hmem _ hf
    | some es =>
      cases up with
      | none =>
        simp only [list_existing_documents, List.append_nil] at hf
        exact hmem _ hf
      | some es2 =>
        simp only [list_existing_documents, List.mem_append] at hf
        rcases hf with hf | hf
        · exact hmem _ hf
        · exact hmem _ hf
  · intro es
    exact pairwise_insertionSortBy nameLe_total (fun h1 h2 => nameLe_trans h1 h2) _

theorem listing_differs_from_ingestion_witness :
    docxFile ∈ list_existing_documents mixedDirs ∧
    (docxFile.is_file = true ∧ docxFile.parts.length = 1) :=
  ⟨by decide, listing_differs_from_ingestion.1 mixedDirs docxFile (by decide)⟩

end Cpf
